import Mathlib

/-!
Verification development for the media-name-extractor HTTP service
(`api/media-name-extractor/main.py`).

The service post-processes a free-text model reply into a cleaned media
title.  Strings are embedded as `List Char`.  The Python string operations
and the two anchored year regexes are embedded operationally below; each
definition carries a comment naming the source line it embeds.
-/

/-! ### Python string primitives -/

/-- Embeds the whitespace character class shared by Python's `str.strip()`
and the regex class `\s` (ASCII fragment; the inputs of interest are ASCII). -/
def isSpaceChar (c : Char) : Bool :=
  c == ' ' || c == '\t' || c == '\n' || c == '\r' || c == '\x0b' || c == '\x0c'

/-- The character set of `result_text.strip('"\'\n')` in `extract_media_name`. -/
def isQuoteNl (c : Char) : Bool :=
  c == '"' || c == '\'' || c == '\n'

/-- Python `str.strip(chars)`: remove characters satisfying `p` from both ends
(leading run and trailing run), leaving interior occurrences. -/
def pyStrip (p : Char → Bool) (l : List Char) : List Char :=
  ((l.dropWhile p).reverse.dropWhile p).reverse

/-- Python `str.strip()` with no argument (whitespace). -/
def stripWs (l : List Char) : List Char := pyStrip isSpaceChar l

/-! ### Markdown code-fence extraction

Embeds:
```
if "```" in result_text:
    match = re.search(r'```(?:json)?\s*(.*?)\s*```', result_text, re.DOTALL)
    if match:
        result_text = match.group(1).strip()
```
`re.search` scans start positions left to right; the pattern matches at a
position iff a literal ` ``` ` starts there (optionally followed by `json`)
and another ` ``` ` occurs later.  Because the lazy group `(.*?)` stops at the
first possible closing fence and the surrounding `\s*` runs are erased by the
subsequent `.strip()`, `match.group(1).strip()` equals the stripped content
between the opening prefix and the first following ` ``` `. -/

/-- The backtick character (written via its code point). -/
def tickChar : Char := Char.ofNat 96

/-- Does the list start with three backticks? -/
def ticks3 : List Char → Bool
  | a :: b :: c :: _ => a == tickChar && b == tickChar && c == tickChar
  | _ => false

/-- Python `"```" in result_text` (substring test). -/
def containsTicks : List Char → Bool
  | [] => false
  | c :: rest => ticks3 (c :: rest) || containsTicks rest

/-- Content strictly before the first occurrence of ` ``` `, or `none` if
there is no occurrence.  This is the region the lazy group can cover. -/
def beforeTicks : List Char → Option (List Char)
  | [] => none
  | c :: rest =>
    if ticks3 (c :: rest) then some []
    else (beforeTicks rest).map (fun g => c :: g)

/-- Does the list start with the literal tag `json` (the `(?:json)?` option)? -/
def jsonTag : List Char → Bool
  | 'j' :: 's' :: 'o' :: 'n' :: _ => true
  | _ => false

/-- One attempt of the fence regex at a fixed start position: an opening
` ``` `, the greedy optional `json` tag (tried first, exactly as the regex
engine does), then the group content up to the first closing ` ``` `. -/
def fenceAt (l : List Char) : Option (List Char) :=
  if ticks3 l then
    let u := l.drop 3
    if jsonTag u then
      match beforeTicks (u.drop 4) with
      | some g => some g
      | none => beforeTicks u
    else beforeTicks u
  else none

/-- `re.search` of the fence pattern: first start position where a full match
exists wins. -/
def fenceSearch : List Char → Option (List Char)
  | [] => none
  | c :: rest =>
    match fenceAt (c :: rest) with
    | some g => some g
    | none => fenceSearch rest

/-! ### The two anchored year regexes

`re.sub(r'\s*\(\d{4}\)\s*$', '', s)` and `re.sub(r'\s*\d{4}\s*$', '', s)`.
Both patterns are anchored at the end of the string, so `re.sub` removes at
most one (leftmost, hence with a maximal whitespace run before the year)
match.  We embed them by examining the reversed string: first the trailing
`\s*$` run, then the year characters, then the leading maximal `\s*` run.
Note that the input handed to these substitutions by `extract_media_name`
never ends in `'\n'` (it was stripped of quotes and newlines just before),
so Python's `$`-before-final-newline subtlety cannot fire. -/

/-- Match `)` + four digits + `(` at the front of a reversed string
(the core of `\(\d{4}\)` seen from the right). -/
def matchParenYearRev : List Char → Option (List Char)
  | c0 :: d1 :: d2 :: d3 :: d4 :: c5 :: rest =>
    if c0 == ')' && d1.isDigit && d2.isDigit && d3.isDigit && d4.isDigit && c5 == '(' then
      some rest
    else none
  | _ => none

/-- `re.sub(r'\s*\(\d{4}\)\s*$', '', l)`. -/
def removeParenYear (l : List Char) : List Char :=
  match matchParenYearRev (l.reverse.dropWhile isSpaceChar) with
  | some rest => (rest.dropWhile isSpaceChar).reverse
  | none => l

/-- Match four digits at the front of a reversed string
(the core of `\d{4}` seen from the right; Python's leftmost-match rule means
only the last four digits of a longer run are consumed, with no whitespace
before them, which is exactly what taking four digits and then dropping a
whitespace run computes). -/
def matchBareYearRev : List Char → Option (List Char)
  | d1 :: d2 :: d3 :: d4 :: rest =>
    if d1.isDigit && d2.isDigit && d3.isDigit && d4.isDigit then some rest else none
  | _ => none

/-- `re.sub(r'\s*\d{4}\s*$', '', l)`. -/
def removeBareYear (l : List Char) : List Char :=
  match matchBareYearRev (l.reverse.dropWhile isSpaceChar) with
  | some rest => (rest.dropWhile isSpaceChar).reverse
  | none => l

/-! ### The cleanup pipeline and the HTTP layer -/

/-- The code-fence step of `extract_media_name` (no-op when the text has no
` ``` ` or the regex finds no full match). -/
def applyFence (t : List Char) : List Char :=
  if containsTicks t then
    match fenceSearch t with
    | some g => stripWs g
    | none => t
  else t

/-- The whole cleanup applied to the model reply in `extract_media_name`:
strip, code-fence extraction, strip quotes/newlines from the ends, remove a
trailing parenthesized year, remove a trailing bare year, final strip. -/
def cleanReply (reply : List Char) : List Char :=
  let t1 := applyFence (stripWs reply)
  let t2 := pyStrip isQuoteNl t1
  stripWs (removeBareYear (removeParenYear t2))

/-- The dict returned by `extract_media_name` (`type` is the `"type"` key). -/
structure MediaResult where
  name : List Char
  year : Option (List Char)
  type : Option (List Char)

/-- An `HTTPException(status_code=..., detail=...)`. -/
structure HTTPError where
  status : Nat
  detail : List Char

/-- Outcome of the blocking `client.chat(...)` call: a reply text, or an
exception carrying a message. -/
inductive ChatOutcome where
  | reply (text : List Char)
  | failure (msg : List Char)

/-- The f-string `f"Error communicating with Ollama: {str(e)}"` up to the
interpolated message. -/
def ollamaErrMsg : List Char := "Error communicating with Ollama: ".toList

/-- `extract_media_name`, with the inference call abstracted into its
outcome: on a reply, the cleanup result with `year`/`type` set to `None`;
on an exception, `HTTPException(500, ...)` with the message appended. -/
def extract_media_name (outcome : ChatOutcome) : Except HTTPError MediaResult :=
  match outcome with
  | .reply t => .ok { name := cleanReply t, year := none, type := none }
  | .failure m => .error { status := 500, detail := ollamaErrMsg ++ m }

/-- The `ExtractionResponse` pydantic model. -/
structure ExtractionResponse where
  original_input : List Char
  extracted_name : List Char
  year : Option (List Char)
  media_type : Option (List Char)

/-- Modelled from the FastAPI framework (external dependency, not in src/):
the endpoint declares `q: str = Query(..., min_length=1)`, and the app
installs no custom validation handler, so a missing or empty `q` is rejected
by FastAPI's built-in request validation with its default status code
422 (Unprocessable Entity) before the endpoint function runs. -/
def validationErrorStatus : Nat := 422

/-- Validation detail for a missing required query parameter. -/
def missingQDetail : List Char := "Field required".toList

/-- Validation detail for a too-short query parameter. -/
def shortQDetail : List Char := "String should have at least 1 character".toList

/-- The framework-level validation of the `q` query parameter. -/
def validate_q : Option (List Char) → Except HTTPError (List Char)
  | none => .error { status := validationErrorStatus, detail := missingQDetail }
  | some s =>
    if s.length < 1 then
      .error { status := validationErrorStatus, detail := shortQDetail }
    else .ok s

/-- The `GET /extract` endpoint: framework validation of `q`, then
`extract_media_name`, then the response assembled from the raw `q` and the
result dict. -/
def extract_name (q : Option (List Char)) (outcome : ChatOutcome) :
    Except HTTPError ExtractionResponse :=
  match validate_q q with
  | .error e => .error e
  | .ok s =>
    match extract_media_name outcome with
    | .error e => .error e
    | .ok r =>
      .ok { original_input := s, extracted_name := r.name,
            year := r.year, media_type := r.type }

/-- Outcome of the `client.list()` liveness probe in `health_check`. -/
inductive ListModelsOutcome where
  | ok
  | failure (msg : List Char)

/-- The success payload of `GET /health`. -/
structure HealthPayload where
  status : List Char
  ollama_host : List Char
  model : List Char

/-- The f-string `f"Ollama connection failed: {str(e)}"` up to the message. -/
def healthErrMsg : List Char := "Ollama connection failed: ".toList

/-- The `GET /health` endpoint, parameterized by the configured host and
model strings: 200 payload on success, `HTTPException(503, ...)` on failure. -/
def health_check (host model : List Char) (o : ListModelsOutcome) :
    Except HTTPError HealthPayload :=
  match o with
  | .ok => .ok { status := "healthy".toList, ollama_host := host, model := model }
  | .failure m => .error { status := 503, detail := healthErrMsg ++ m }

/-! ### Spec-side definitions

For claim C2 (a refinement claim) we formalize the spec's described cleanup
sequence independently, scanning the string from the front for the earliest
suffix of the stated shape.  `wsParenYearEnd`/`wsBareYearEnd` read the spec's
steps 6-7 literally: the year, optionally preceded by whitespace, sits at the
very end.  `wsParenYearWs`/`wsBareYearWs` additionally tolerate trailing
whitespace after the year, as the source regexes (`\s*$`) do. -/

/-- Suffix shape: whitespace run, `(dddd)`, whitespace run to the end. -/
def wsParenYearWs (s : List Char) : Bool :=
  match s.dropWhile isSpaceChar with
  | c0 :: d1 :: d2 :: d3 :: d4 :: c5 :: rest =>
    c0 == '(' && d1.isDigit && d2.isDigit && d3.isDigit && d4.isDigit && c5 == ')' &&
      rest.all isSpaceChar
  | _ => false

/-- Suffix shape: whitespace run, four digits, whitespace run to the end. -/
def wsBareYearWs (s : List Char) : Bool :=
  match s.dropWhile isSpaceChar with
  | d1 :: d2 :: d3 :: d4 :: rest =>
    d1.isDigit && d2.isDigit && d3.isDigit && d4.isDigit && rest.all isSpaceChar
  | _ => false

/-- Suffix shape: whitespace run, then `(dddd)` ending the string. -/
def wsParenYearEnd (s : List Char) : Bool :=
  match s.dropWhile isSpaceChar with
  | [c0, d1, d2, d3, d4, c5] =>
    c0 == '(' && d1.isDigit && d2.isDigit && d3.isDigit && d4.isDigit && c5 == ')'
  | _ => false

/-- Suffix shape: whitespace run, then four digits ending the string. -/
def wsBareYearEnd (s : List Char) : Bool :=
  match s.dropWhile isSpaceChar with
  | [d1, d2, d3, d4] => d1.isDigit && d2.isDigit && d3.isDigit && d4.isDigit
  | _ => false

/-- Remove the earliest suffix satisfying `pat` (scanning splits from the
left); leave the list unchanged when no suffix matches. -/
def removeFirstSuffix (pat : List Char → Bool) : List Char → List Char
  | [] => []
  | c :: t => if pat (c :: t) then [] else c :: removeFirstSuffix pat t

/-- The cleanup sequence as the spec describes it, parameterized by the two
trailing-year shapes.  The fence and strip steps are shared with the code
embedding because the spec describes them in identical terms. -/
def specClean (parenPat barePat : List Char → Bool) (reply : List Char) : List Char :=
  let t1 := applyFence (stripWs reply)
  let t2 := pyStrip isQuoteNl t1
  stripWs (removeFirstSuffix barePat (removeFirstSuffix parenPat t2))

/-- Claim C2's sequence read literally: the removed year ends the string. -/
def specCleanStrict : List Char → List Char :=
  specClean wsParenYearEnd wsBareYearEnd

/-- The amended sequence: the removed year may be followed by trailing
whitespace, matching the `\s*$` of the source regexes. -/
def specCleanAmended : List Char → List Char :=
  specClean wsParenYearWs wsBareYearWs

/-! ### Predicates used to state claim C1 -/

/-- A double- or single-quote character. -/
def isQuoteChar (c : Char) : Bool := c == '"' || c == '\''

/-- Does the list start with a quote character? -/
def headIsQuote : List Char → Bool
  | [] => false
  | c :: _ => isQuoteChar c

/-- Does the string end with a 4-digit year pattern, parenthesized like
` (1999)` or bare like ` 1999` (read off the reversed string)? -/
def endsWithYearPattern (l : List Char) : Bool :=
  (match l.reverse with
   | c0 :: d1 :: d2 :: d3 :: d4 :: c5 :: _ =>
     c0 == ')' && d1.isDigit && d2.isDigit && d3.isDigit && d4.isDigit && c5 == '('
   | _ => false) ||
  (match l.reverse with
   | e1 :: e2 :: e3 :: e4 :: w :: _ =>
     e1.isDigit && e2.isDigit && e3.isDigit && e4.isDigit && isSpaceChar w
   | _ => false)

/-- The property claim C1 asserts of `extracted_name`: trimmed, no quote
character at either end, no trailing year pattern. -/
def c1Claim (l : List Char) : Bool :=
  (stripWs l == l) && !headIsQuote l && !headIsQuote l.reverse && !endsWithYearPattern l

/-! ### Concrete inputs used by counterexamples and test-vector claims -/

/-- A model reply refuting C1 as stated: `" 'Foo 1999 2000"` (with the outer
double quotes part of the reply). -/
def c1Input : List Char :=
  ['"', ' ', '\'', 'F', 'o', 'o', ' ', '1', '9', '9', '9', ' ', '2', '0', '0', '0', '"']

/-- What the cleanup makes of `c1Input`: `'Foo 1999`. -/
def c1Output : List Char :=
  ['\'', 'F', 'o', 'o', ' ', '1', '9', '9', '9']

/-- A model reply on which the strict reading of the spec's sequence and the
code disagree: `Movie (1999) "`. -/
def c2Input : List Char := "Movie (1999) \"".toList

/-- The title with an embedded (non-trailing) year from claim C9. -/
def odysseyTitle : List Char := "2001: A Space Odyssey".toList

/-! ### General helper lemmas -/

theorem dropWhile_head_false {α : Type} {p : α → Bool} :
    ∀ {l : List α} {c : α} {t : List α}, l.dropWhile p = c :: t → p c = false := by
  intro l
  induction l with
  | nil => intro c t h; simp [List.dropWhile] at h
  | cons a l ih =>
    intro c t h
    rw [List.dropWhile_cons] at h
    by_cases ha : p a = true
    · rw [if_pos ha] at h; exact ih h
    · rw [if_neg ha] at h
      obtain ⟨rfl, -⟩ := (List.cons.injEq _ _ _ _).mp h
      simpa using ha

theorem dropWhile_idem {α : Type} {p : α → Bool} (l : List α) :
    (l.dropWhile p).dropWhile p = l.dropWhile p := by
  cases h : l.dropWhile p with
  | nil => simp
  | cons c t => rw [List.dropWhile_cons, if_neg (by simp [dropWhile_head_false h])]

theorem all_dropWhile_nil {α : Type} {p : α → Bool} {a : List α} (h : a.all p = true) :
    a.dropWhile p = [] :=
  List.dropWhile_eq_nil_iff.mpr fun x hx => List.all_eq_true.mp h x hx

theorem takeWhile_all {α : Type} (p : α → Bool) (l : List α) :
    (l.takeWhile p).all p = true :=
  List.all_eq_true.mpr fun _ hx => List.mem_takeWhile_imp hx

theorem dropWhile_append_all {α : Type} {p : α → Bool} {a : List α} (b : List α)
    (h : a.all p = true) : (a ++ b).dropWhile p = b.dropWhile p := by
  rw [List.dropWhile_append, if_pos (List.isEmpty_iff.mpr (all_dropWhile_nil h))]

theorem dropWhile_append_cons {α : Type} {p : α → Bool} {a : List α} {c : α} {v : List α}
    (b : List α) (h : a.dropWhile p = c :: v) : (a ++ b).dropWhile p = c :: (v ++ b) := by
  rw [List.dropWhile_append, h]
  simp

/-- Rebuild a list from the whitespace-run decomposition of its reverse. -/
theorem eq_of_reverse_dropWhile {p : Char → Bool} {t u : List Char}
    (h : t.reverse.dropWhile p = u) :
    t = u.reverse ++ (t.reverse.takeWhile p).reverse := by
  have h2 := List.takeWhile_append_dropWhile p t.reverse
  rw [h] at h2
  have h3 := congrArg List.reverse h2
  rw [List.reverse_append, List.reverse_reverse] at h3
  exact h3.symm

theorem isDigit_not_space {c : Char} (h : c.isDigit = true) : isSpaceChar c = false := by
  by_contra hn
  rw [Bool.not_eq_false] at hn
  unfold isSpaceChar at hn
  simp only [Bool.or_eq_true, beq_iff_eq] at hn
  rcases hn with ((((rfl | rfl) | rfl) | rfl) | rfl) | rfl <;> exact absurd h (by decide)

/-! ### Idempotence of `pyStrip` (used for claim C1's amended statement) -/

theorem pyStrip_reverse_dropWhile (p : Char → Bool) (l : List Char) :
    (pyStrip p l).reverse.dropWhile p = (pyStrip p l).reverse := by
  unfold pyStrip
  rw [List.reverse_reverse]
  exact dropWhile_idem _

theorem pyStrip_dropWhile (p : Char → Bool) (l : List Char) :
    (pyStrip p l).dropWhile p = pyStrip p l := by
  cases hs : pyStrip p l with
  | nil => simp
  | cons c t =>
    have hs' : (l.dropWhile p).reverse.dropWhile p = t.reverse ++ [c] := by
      have := congrArg List.reverse hs
      rw [pyStrip, List.reverse_reverse, List.reverse_cons] at this
      exact this
    have hA : l.dropWhile p = c :: (t ++ ((l.dropWhile p).reverse.takeWhile p).reverse) := by
      have h2 := eq_of_reverse_dropWhile hs'
      rw [List.reverse_append, List.reverse_reverse] at h2
      simpa using h2
    rw [List.dropWhile_cons, if_neg (by simp [dropWhile_head_false hA])]

theorem pyStrip_idem (p : Char → Bool) (l : List Char) :
    pyStrip p (pyStrip p l) = pyStrip p l := by
  show (((pyStrip p l).dropWhile p).reverse.dropWhile p).reverse = pyStrip p l
  rw [pyStrip_dropWhile, pyStrip_reverse_dropWhile, List.reverse_reverse]

/-- The cleanup result is a fixed point of stripping: `cleanReply` ends in a
final `.strip()`. -/
theorem stripWs_cleanReply (t : List Char) : stripWs (cleanReply t) = cleanReply t :=
  pyStrip_idem isSpaceChar _

/-! ### Unfolding lemmas for the two substitutions -/

theorem removeParenYear_eq_some {l rest : List Char}
    (h : matchParenYearRev (l.reverse.dropWhile isSpaceChar) = some rest) :
    removeParenYear l = (rest.dropWhile isSpaceChar).reverse := by
  unfold removeParenYear
  rw [h]

theorem removeParenYear_eq_none {l : List Char}
    (h : matchParenYearRev (l.reverse.dropWhile isSpaceChar) = none) :
    removeParenYear l = l := by
  unfold removeParenYear
  rw [h]

theorem removeBareYear_eq_some {l rest : List Char}
    (h : matchBareYearRev (l.reverse.dropWhile isSpaceChar) = some rest) :
    removeBareYear l = (rest.dropWhile isSpaceChar).reverse := by
  unfold removeBareYear
  rw [h]

theorem removeBareYear_eq_none {l : List Char}
    (h : matchBareYearRev (l.reverse.dropWhile isSpaceChar) = none) :
    removeBareYear l = l := by
  unfold removeBareYear
  rw [h]

/-! ### Inversion and append lemmas for the reversed year matchers -/

theorem matchParenYearRev_short : ∀ {v : List Char}, v.length < 6 → matchParenYearRev v = none
  | [], _ => rfl
  | [_], _ => rfl
  | [_, _], _ => rfl
  | [_, _, _], _ => rfl
  | [_, _, _, _], _ => rfl
  | [_, _, _, _, _], _ => rfl
  | _ :: _ :: _ :: _ :: _ :: _ :: _, h => absurd h (by simp)

theorem matchBareYearRev_short : ∀ {v : List Char}, v.length < 4 → matchBareYearRev v = none
  | [], _ => rfl
  | [_], _ => rfl
  | [_, _], _ => rfl
  | [_, _, _], _ => rfl
  | _ :: _ :: _ :: _ :: _, h => absurd h (by simp)

theorem matchParenYearRev_some_shape : ∀ {v r : List Char}, matchParenYearRev v = some r →
    ∃ d1 d2 d3 d4, v = ')' :: d1 :: d2 :: d3 :: d4 :: '(' :: r ∧
      (d1.isDigit && d2.isDigit && d3.isDigit && d4.isDigit) = true
  | [], _, h => Option.noConfusion h
  | [_], _, h => Option.noConfusion h
  | [_, _], _, h => Option.noConfusion h
  | [_, _, _], _, h => Option.noConfusion h
  | [_, _, _, _], _, h => Option.noConfusion h
  | [_, _, _, _, _], _, h => Option.noConfusion h
  | a :: b :: c :: d :: e :: f :: rest, r, h => by
    simp only [matchParenYearRev] at h
    by_cases hc : (a == ')' && b.isDigit && c.isDigit && d.isDigit && e.isDigit && f == '(') = true
    · rw [if_pos hc] at h
      obtain rfl : rest = r := Option.some.inj h
      simp only [Bool.and_eq_true, beq_iff_eq] at hc
      obtain ⟨⟨⟨⟨⟨rfl, h1⟩, h2⟩, h3⟩, h4⟩, rfl⟩ := hc
      exact ⟨b, c, d, e, rfl, by simp [h1, h2, h3, h4]⟩
    · rw [if_neg hc] at h
      exact Option.noConfusion h

theorem matchBareYearRev_some_shape : ∀ {v r : List Char}, matchBareYearRev v = some r →
    ∃ d1 d2 d3 d4, v = d1 :: d2 :: d3 :: d4 :: r ∧
      (d1.isDigit && d2.isDigit && d3.isDigit && d4.isDigit) = true
  | [], _, h => Option.noConfusion h
  | [_], _, h => Option.noConfusion h
  | [_, _], _, h => Option.noConfusion h
  | [_, _, _], _, h => Option.noConfusion h
  | a :: b :: c :: d :: rest, r, h => by
    simp only [matchBareYearRev] at h
    by_cases hc : (a.isDigit && b.isDigit && c.isDigit && d.isDigit) = true
    · rw [if_pos hc] at h
      obtain rfl : rest = r := Option.some.inj h
      exact ⟨a, b, c, d, rfl, hc⟩
    · rw [if_neg hc] at h
      exact Option.noConfusion h

theorem matchParenYearRev_append : ∀ {v r : List Char} (w : List Char),
    matchParenYearRev v = some r → matchParenYearRev (v ++ w) = some (r ++ w)
  | [], _, _, h => Option.noConfusion h
  | [_], _, _, h => Option.noConfusion h
  | [_, _], _, _, h => Option.noConfusion h
  | [_, _, _], _, _, h => Option.noConfusion h
  | [_, _, _, _], _, _, h => Option.noConfusion h
  | [_, _, _, _, _], _, _, h => Option.noConfusion h
  | a :: b :: c :: d :: e :: f :: rest, r, w, h => by
    simp only [matchParenYearRev] at h
    simp only [List.cons_append, matchParenYearRev]
    by_cases hc : (a == ')' && b.isDigit && c.isDigit && d.isDigit && e.isDigit && f == '(') = true
    · rw [if_pos hc] at h
      obtain rfl : rest = r := Option.some.inj h
      rw [if_pos hc]
    · rw [if_neg hc] at h
      exact Option.noConfusion h

theorem matchBareYearRev_append : ∀ {v r : List Char} (w : List Char),
    matchBareYearRev v = some r → matchBareYearRev (v ++ w) = some (r ++ w)
  | [], _, _, h => Option.noConfusion h
  | [_], _, _, h => Option.noConfusion h
  | [_, _], _, _, h => Option.noConfusion h
  | [_, _, _], _, _, h => Option.noConfusion h
  | a :: b :: c :: d :: rest, r, w, h => by
    simp only [matchBareYearRev] at h
    simp only [List.cons_append, matchBareYearRev]
    by_cases hc : (a.isDigit && b.isDigit && c.isDigit && d.isDigit) = true
    · rw [if_pos hc] at h
      obtain rfl : rest = r := Option.some.inj h
      rw [if_pos hc]
    · rw [if_neg hc] at h
      exact Option.noConfusion h

theorem matchParenYearRev_append_one : ∀ {v : List Char} {x : Char} {r : List Char},
    matchParenYearRev (v ++ [x]) = some r →
    (∃ r0, matchParenYearRev v = some r0 ∧ r = r0 ++ [x]) ∨
    (∃ d1 d2 d3 d4, v = [')', d1, d2, d3, d4] ∧
      (d1.isDigit && d2.isDigit && d3.isDigit && d4.isDigit) = true ∧ x = '(' ∧ r = [])
  | [], _, _, h => absurd h (by rw [matchParenYearRev_short (by simp)]; simp)
  | [_], _, _, h => absurd h (by rw [matchParenYearRev_short (by simp)]; simp)
  | [_, _], _, _, h => absurd h (by rw [matchParenYearRev_short (by simp)]; simp)
  | [_, _, _], _, _, h => absurd h (by rw [matchParenYearRev_short (by simp)]; simp)
  | [_, _, _, _], _, _, h => absurd h (by rw [matchParenYearRev_short (by simp)]; simp)
  | [a, b, c, d, e], x, r, h => by
    simp only [List.cons_append, List.nil_append, matchParenYearRev] at h
    by_cases hc : (a == ')' && b.isDigit && c.isDigit && d.isDigit && e.isDigit && x == '(') = true
    · rw [if_pos hc] at h
      obtain rfl : ([] : List Char) = r := Option.some.inj h
      simp only [Bool.and_eq_true, beq_iff_eq] at hc
      obtain ⟨⟨⟨⟨⟨rfl, hb⟩, hcd⟩, hd⟩, he⟩, rfl⟩ := hc
      exact Or.inr ⟨b, c, d, e, rfl, by simp [hb, hcd, hd, he], rfl, rfl⟩
    · rw [if_neg hc] at h
      exact Option.noConfusion h
  | a :: b :: c :: d :: e :: f :: rest, x, r, h => by
    simp only [List.cons_append, matchParenYearRev] at h
    by_cases hc : (a == ')' && b.isDigit && c.isDigit && d.isDigit && e.isDigit && f == '(') = true
    · rw [if_pos hc] at h
      obtain rfl : rest ++ [x] = r := Option.some.inj h
      exact Or.inl ⟨rest, by simp only [matchParenYearRev]; rw [if_pos hc], rfl⟩
    · rw [if_neg hc] at h
      exact Option.noConfusion h

theorem matchBareYearRev_append_one : ∀ {v : List Char} {x : Char} {r : List Char},
    matchBareYearRev (v ++ [x]) = some r →
    (∃ r0, matchBareYearRev v = some r0 ∧ r = r0 ++ [x]) ∨
    (∃ d1 d2 d3, v = [d1, d2, d3] ∧
      (d1.isDigit && d2.isDigit && d3.isDigit && x.isDigit) = true ∧ r = [])
  | [], _, _, h => absurd h (by rw [matchBareYearRev_short (by simp)]; simp)
  | [_], _, _, h => absurd h (by rw [matchBareYearRev_short (by simp)]; simp)
  | [_, _], _, _, h => absurd h (by rw [matchBareYearRev_short (by simp)]; simp)
  | [a, b, c], x, r, h => by
    simp only [List.cons_append, List.nil_append, matchBareYearRev] at h
    by_cases hc : (a.isDigit && b.isDigit && c.isDigit && x.isDigit) = true
    · rw [if_pos hc] at h
      obtain rfl : ([] : List Char) = r := Option.some.inj h
      exact Or.inr ⟨a, b, c, rfl, hc, rfl⟩
    · rw [if_neg hc] at h
      exact Option.noConfusion h
  | a :: b :: c :: d :: rest, x, r, h => by
    simp only [List.cons_append, matchBareYearRev] at h
    by_cases hc : (a.isDigit && b.isDigit && c.isDigit && d.isDigit) = true
    · rw [if_pos hc] at h
      obtain rfl : rest ++ [x] = r := Option.some.inj h
      exact Or.inl ⟨rest, by simp only [matchBareYearRev]; rw [if_pos hc], rfl⟩
    · rw [if_neg hc] at h
      exact Option.noConfusion h

/-! ### Introduction lemmas for the suffix shapes -/

theorem wsParenYearWs_intro (front W : List Char) {d1 d2 d3 d4 : Char}
    (hf : front.all isSpaceChar = true) (hW : W.all isSpaceChar = true)
    (h1 : d1.isDigit = true) (h2 : d2.isDigit = true)
    (h3 : d3.isDigit = true) (h4 : d4.isDigit = true) :
    wsParenYearWs (front ++ '(' :: d1 :: d2 :: d3 :: d4 :: ')' :: W) = true := by
  unfold wsParenYearWs
  rw [dropWhile_append_all _ hf, List.dropWhile_cons,
    if_neg (by rw [show isSpaceChar '(' = false from by decide]; simp)]
  simp [h1, h2, h3, h4, hW]

theorem wsBareYearWs_intro (front W : List Char) {d1 d2 d3 d4 : Char}
    (hf : front.all isSpaceChar = true) (hW : W.all isSpaceChar = true)
    (h1 : d1.isDigit = true) (h2 : d2.isDigit = true)
    (h3 : d3.isDigit = true) (h4 : d4.isDigit = true) :
    wsBareYearWs (front ++ d1 :: d2 :: d3 :: d4 :: W) = true := by
  unfold wsBareYearWs
  rw [dropWhile_append_all _ hf, List.dropWhile_cons,
    if_neg (by rw [isDigit_not_space h1]; simp)]
  simp [h1, h2, h3, h4, hW]

/-! ### A full-string match makes the substitutions remove everything -/

theorem removeParenYear_of_wsParenYearWs {l : List Char} (h : wsParenYearWs l = true) :
    removeParenYear l = [] := by
  unfold wsParenYearWs at h
  rcases hq : l.dropWhile isSpaceChar with
    _ | ⟨c0, _ | ⟨d1, _ | ⟨d2, _ | ⟨d3, _ | ⟨d4, _ | ⟨c5, rest⟩⟩⟩⟩⟩⟩ <;> rw [hq] at h
  case nil => exact absurd h (by simp)
  case cons.nil => exact absurd h (by simp)
  case cons.cons.nil => exact absurd h (by simp)
  case cons.cons.cons.nil => exact absurd h (by simp)
  case cons.cons.cons.cons.nil => exact absurd h (by simp)
  case cons.cons.cons.cons.cons.nil => exact absurd h (by simp)
  simp only [Bool.and_eq_true, beq_iff_eq] at h
  obtain ⟨⟨⟨⟨⟨⟨rfl, hd1⟩, hd2⟩, hd3⟩, hd4⟩, rfl⟩, hall⟩ := h
  have hl := List.takeWhile_append_dropWhile isSpaceChar l
  rw [hq] at hl
  have hrev : l.reverse.dropWhile isSpaceChar
      = ')' :: d4 :: d3 :: d2 :: d1 :: '(' :: (l.takeWhile isSpaceChar).reverse := by
    conv_lhs => rw [← hl]
    rw [List.reverse_append]
    rw [show ('(' :: d1 :: d2 :: d3 :: d4 :: ')' :: rest).reverse
        = rest.reverse ++ (')' :: d4 :: d3 :: d2 :: d1 :: ['(']) from by simp]
    rw [List.append_assoc,
      dropWhile_append_all _ (by rw [List.all_reverse]; exact hall)]
    simp only [List.cons_append, List.nil_append]
    rw [List.dropWhile_cons, if_neg (by rw [show isSpaceChar ')' = false from by decide]; simp)]
  rw [removeParenYear_eq_some (by
    rw [hrev]
    simp only [matchParenYearRev]
    rw [if_pos (by simp [hd1, hd2, hd3, hd4])])]
  rw [all_dropWhile_nil (by rw [List.all_reverse]; exact takeWhile_all _ _)]
  rfl

theorem removeBareYear_of_wsBareYearWs {l : List Char} (h : wsBareYearWs l = true) :
    removeBareYear l = [] := by
  unfold wsBareYearWs at h
  rcases hq : l.dropWhile isSpaceChar with
    _ | ⟨d1, _ | ⟨d2, _ | ⟨d3, _ | ⟨d4, rest⟩⟩⟩⟩ <;> rw [hq] at h
  case nil => exact absurd h (by simp)
  case cons.nil => exact absurd h (by simp)
  case cons.cons.nil => exact absurd h (by simp)
  case cons.cons.cons.nil => exact absurd h (by simp)
  simp only [Bool.and_eq_true, beq_iff_eq] at h
  obtain ⟨⟨⟨⟨hd1, hd2⟩, hd3⟩, hd4⟩, hall⟩ := h
  have hl := List.takeWhile_append_dropWhile isSpaceChar l
  rw [hq] at hl
  have hrev : l.reverse.dropWhile isSpaceChar
      = d4 :: d3 :: d2 :: d1 :: (l.takeWhile isSpaceChar).reverse := by
    conv_lhs => rw [← hl]
    rw [List.reverse_append]
    rw [show (d1 :: d2 :: d3 :: d4 :: rest).reverse
        = rest.reverse ++ (d4 :: d3 :: d2 :: [d1]) from by simp]
    rw [List.append_assoc,
      dropWhile_append_all _ (by rw [List.all_reverse]; exact hall)]
    simp only [List.cons_append, List.nil_append]
    rw [List.dropWhile_cons, if_neg (by rw [isDigit_not_space hd4]; simp)]
  rw [removeBareYear_eq_some (by
    rw [hrev]
    simp only [matchBareYearRev]
    rw [if_pos (by simp [hd1, hd2, hd3, hd4])])]
  rw [all_dropWhile_nil (by rw [List.all_reverse]; exact takeWhile_all _ _)]
  rfl

/-! ### Prepending a character commutes with the substitutions unless the
whole string becomes a match -/

theorem removeParenYear_cons {c : Char} {t : List Char} (h : wsParenYearWs (c :: t) = false) :
    removeParenYear (c :: t) = c :: removeParenYear t := by
  cases hA : t.reverse.dropWhile isSpaceChar with
  | nil =>
    have hd : (c :: t).reverse.dropWhile isSpaceChar = [c].dropWhile isSpaceChar := by
      rw [List.reverse_cons, List.dropWhile_append, hA]
      simp
    have hlen : ([c].dropWhile isSpaceChar).length < 6 := by
      rw [List.dropWhile_cons]
      split <;> simp
    rw [removeParenYear_eq_none (by rw [hd]; exact matchParenYearRev_short hlen),
      removeParenYear_eq_none (by rw [hA]; exact matchParenYearRev_short (by simp))]
  | cons e v =>
    have hd : (c :: t).reverse.dropWhile isSpaceChar = e :: (v ++ [c]) := by
      rw [List.reverse_cons]
      exact dropWhile_append_cons [c] hA
    cases hm : matchParenYearRev (e :: (v ++ [c])) with
    | none =>
      have hnone0 : matchParenYearRev (e :: v) = none := by
        cases hx : matchParenYearRev (e :: v) with
        | none => rfl
        | some r0 =>
          have hy := matchParenYearRev_append [c] hx
          rw [List.cons_append] at hy
          rw [hm] at hy
          exact Option.noConfusion hy
      rw [removeParenYear_eq_none (by rw [hd]; exact hm),
        removeParenYear_eq_none (by rw [hA]; exact hnone0)]
    | some r' =>
      rw [removeParenYear_eq_some (by rw [hd]; exact hm)]
      have h1 := matchParenYearRev_append_one (v := e :: v) (x := c)
        (by rw [List.cons_append]; exact hm)
      rcases h1 with ⟨r0, hm0, rfl⟩ | ⟨D1, D2, D3, D4, hev, hdig, rfl, rfl⟩
      · rw [removeParenYear_eq_some (by rw [hA]; exact hm0)]
        cases hB : r0.dropWhile isSpaceChar with
        | cons f u =>
          rw [dropWhile_append_cons [c] hB]
          simp
        | nil =>
          by_cases hcw : isSpaceChar c = true
          · exfalso
            obtain ⟨D1, D2, D3, D4, hsh, hdig⟩ := matchParenYearRev_some_shape hm0
            obtain ⟨rfl, rfl⟩ := (List.cons.injEq _ _ _ _).mp hsh
            simp only [Bool.and_eq_true] at hdig
            obtain ⟨⟨⟨h1, h2⟩, h3⟩, h4⟩ := hdig
            have hr0 : r0.all isSpaceChar = true :=
              List.all_eq_true.mpr (List.dropWhile_eq_nil_iff.mp hB)
            have ht := eq_of_reverse_dropWhile hA
            have hct : c :: t = (c :: r0.reverse) ++
                '(' :: D4 :: D3 :: D2 :: D1 :: ')' ::
                  (t.reverse.takeWhile isSpaceChar).reverse := by
              conv_lhs => rw [ht]
              simp
            have htrue := wsParenYearWs_intro (c :: r0.reverse)
              ((t.reverse.takeWhile isSpaceChar).reverse)
              (by simp [hcw, List.all_reverse, hr0])
              (by rw [List.all_reverse]; exact takeWhile_all _ _) h4 h3 h2 h1
            rw [← hct] at htrue
            rw [h] at htrue
            exact Bool.noConfusion htrue
          · have hc1 : (r0 ++ [c]).dropWhile isSpaceChar = [c] := by
              rw [List.dropWhile_append, hB]
              simp [List.dropWhile_cons, hcw]
            rw [hc1]
            simp
      · exfalso
        obtain ⟨rfl, rfl⟩ := (List.cons.injEq _ _ _ _).mp hev
        simp only [Bool.and_eq_true] at hdig
        obtain ⟨⟨⟨h1, h2⟩, h3⟩, h4⟩ := hdig
        have ht := eq_of_reverse_dropWhile hA
        have hct : '(' :: t = ([] : List Char) ++
            '(' :: D4 :: D3 :: D2 :: D1 :: ')' ::
              (t.reverse.takeWhile isSpaceChar).reverse := by
          conv_lhs => rw [ht]
          simp
        have htrue := wsParenYearWs_intro []
          ((t.reverse.takeWhile isSpaceChar).reverse) rfl
          (by rw [List.all_reverse]; exact takeWhile_all _ _) h4 h3 h2 h1
        rw [← hct] at htrue
        rw [h] at htrue
        exact Bool.noConfusion htrue

theorem removeBareYear_cons {c : Char} {t : List Char} (h : wsBareYearWs (c :: t) = false) :
    removeBareYear (c :: t) = c :: removeBareYear t := by
  cases hA : t.reverse.dropWhile isSpaceChar with
  | nil =>
    have hd : (c :: t).reverse.dropWhile isSpaceChar = [c].dropWhile isSpaceChar := by
      rw [List.reverse_cons, List.dropWhile_append, hA]
      simp
    have hlen : ([c].dropWhile isSpaceChar).length < 4 := by
      rw [List.dropWhile_cons]
      split <;> simp
    rw [removeBareYear_eq_none (by rw [hd]; exact matchBareYearRev_short hlen),
      removeBareYear_eq_none (by rw [hA]; exact matchBareYearRev_short (by simp))]
  | cons e v =>
    have hd : (c :: t).reverse.dropWhile isSpaceChar = e :: (v ++ [c]) := by
      rw [List.reverse_cons]
      exact dropWhile_append_cons [c] hA
    cases hm : matchBareYearRev (e :: (v ++ [c])) with
    | none =>
      have hnone0 : matchBareYearRev (e :: v) = none := by
        cases hx : matchBareYearRev (e :: v) with
        | none => rfl
        | some r0 =>
          have hy := matchBareYearRev_append [c] hx
          rw [List.cons_append] at hy
          rw [hm] at hy
          exact Option.noConfusion hy
      rw [removeBareYear_eq_none (by rw [hd]; exact hm),
        removeBareYear_eq_none (by rw [hA]; exact hnone0)]
    | some r' =>
      rw [removeBareYear_eq_some (by rw [hd]; exact hm)]
      have h1 := matchBareYearRev_append_one (v := e :: v) (x := c)
        (by rw [List.cons_append]; exact hm)
      rcases h1 with ⟨r0, hm0, rfl⟩ | ⟨D1, D2, D3, hev, hdig, rfl⟩
      · rw [removeBareYear_eq_some (by rw [hA]; exact hm0)]
        cases hB : r0.dropWhile isSpaceChar with
        | cons f u =>
          rw [dropWhile_append_cons [c] hB]
          simp
        | nil =>
          by_cases hcw : isSpaceChar c = true
          · exfalso
            obtain ⟨D1, D2, D3, D4, hsh, hdig⟩ := matchBareYearRev_some_shape hm0
            obtain ⟨rfl, rfl⟩ := (List.cons.injEq _ _ _ _).mp hsh
            simp only [Bool.and_eq_true] at hdig
            obtain ⟨⟨⟨h1, h2⟩, h3⟩, h4⟩ := hdig
            have hr0 : r0.all isSpaceChar = true :=
              List.all_eq_true.mpr (List.dropWhile_eq_nil_iff.mp hB)
            have ht := eq_of_reverse_dropWhile hA
            have hct : c :: t = (c :: r0.reverse) ++
                D4 :: D3 :: D2 :: e :: (t.reverse.takeWhile isSpaceChar).reverse := by
              conv_lhs => rw [ht]
              simp
            have htrue := wsBareYearWs_intro (c :: r0.reverse)
              ((t.reverse.takeWhile isSpaceChar).reverse)
              (by simp [hcw, List.all_reverse, hr0])
              (by rw [List.all_reverse]; exact takeWhile_all _ _) h4 h3 h2 h1
            rw [← hct] at htrue
            rw [h] at htrue
            exact Bool.noConfusion htrue
          · have hc1 : (r0 ++ [c]).dropWhile isSpaceChar = [c] := by
              rw [List.dropWhile_append, hB]
              simp [List.dropWhile_cons, hcw]
            rw [hc1]
            simp
      · exfalso
        obtain ⟨rfl, rfl⟩ := (List.cons.injEq _ _ _ _).mp hev
        simp only [Bool.and_eq_true] at hdig
        obtain ⟨⟨⟨h1, h2⟩, h3⟩, h4⟩ := hdig
        have ht := eq_of_reverse_dropWhile hA
        have hct : c :: t = ([] : List Char) ++
            c :: D3 :: D2 :: e :: (t.reverse.takeWhile isSpaceChar).reverse := by
          conv_lhs => rw [ht]
          simp
        have htrue := wsBareYearWs_intro []
          ((t.reverse.takeWhile isSpaceChar).reverse) rfl
          (by rw [List.all_reverse]; exact takeWhile_all _ _) h4 h3 h2 h1
        rw [← hct] at htrue
        rw [h] at htrue
        exact Bool.noConfusion htrue

/-! ### The spec's forward suffix removal equals the regex substitutions -/

theorem removeFirstSuffix_paren_eq :
    ∀ l : List Char, removeFirstSuffix wsParenYearWs l = removeParenYear l := by
  intro l
  induction l with
  | nil => rfl
  | cons c t ih =>
    simp only [removeFirstSuffix]
    by_cases hp : wsParenYearWs (c :: t) = true
    · rw [if_pos hp, removeParenYear_of_wsParenYearWs hp]
    · rw [if_neg hp, ih, removeParenYear_cons (by simpa using hp)]

theorem removeFirstSuffix_bare_eq :
    ∀ l : List Char, removeFirstSuffix wsBareYearWs l = removeBareYear l := by
  intro l
  induction l with
  | nil => rfl
  | cons c t ih =>
    simp only [removeFirstSuffix]
    by_cases hp : wsBareYearWs (c :: t) = true
    · rw [if_pos hp, removeBareYear_of_wsBareYearWs hp]
    · rw [if_neg hp, ih, removeBareYear_cons (by simpa using hp)]

/-- Whatever `removeFirstSuffix` removes is a suffix of the stated shape. -/
theorem removeFirstSuffix_decomp (pat : List Char → Bool) :
    ∀ l : List Char, ∃ suf, l = removeFirstSuffix pat l ++ suf ∧
      (suf = [] ∨ pat suf = true) := by
  intro l
  induction l with
  | nil => exact ⟨[], rfl, Or.inl rfl⟩
  | cons c t ih =>
    by_cases hp : pat (c :: t) = true
    · exact ⟨c :: t, by simp [removeFirstSuffix, hp], Or.inr hp⟩
    · obtain ⟨suf, hs, hor⟩ := ih
      refine ⟨suf, ?_, hor⟩
      simp only [removeFirstSuffix]
      rw [if_neg hp, List.cons_append, ← hs]

/-! ### Claim theorems -/

/-- C1, counterexample: the claim as stated is false.  On the non-empty input
`q` with the model reply `" 'Foo 1999 2000"`, `/extract` succeeds and its
`extracted_name` is `'Foo 1999`, which starts with a single-quote character
and ends with the bare year pattern ` 1999`. -/
theorem c1_counterexample :
    extract_name (some ['q']) (ChatOutcome.reply c1Input) =
      Except.ok { original_input := ['q'], extracted_name := c1Output,
                  year := none, media_type := none } ∧
    c1Claim c1Output = false ∧
    headIsQuote c1Output = true ∧
    endsWithYearPattern c1Output = true :=
  ⟨rfl, by decide, by decide, by decide⟩

/-- C1, amended: for every non-empty input and every reply, the
`extracted_name` field of a successful `/extract` response is a trimmed
string (no leading or trailing whitespace); the no-quote and no-trailing-year
parts of the original claim do not hold in general. -/
theorem c1_theorem (q : List Char) (o : ChatOutcome) (r : ExtractionResponse)
    (h : extract_name (some q) o = Except.ok r) :
    stripWs r.extracted_name = r.extracted_name := by
  simp only [extract_name, validate_q] at h
  by_cases hq : q.length < 1
  · rw [if_pos hq] at h
    exact Except.noConfusion
      (show (Except.error { status := validationErrorStatus, detail := shortQDetail } :
        Except HTTPError ExtractionResponse) = Except.ok r from h)
  · rw [if_neg hq] at h
    cases o with
    | failure m =>
      exact Except.noConfusion
        (show (Except.error { status := 500, detail := ollamaErrMsg ++ m } :
          Except HTTPError ExtractionResponse) = Except.ok r from h)
    | reply t =>
      have h2 := Except.ok.inj
        (show (Except.ok ⟨q, cleanReply t, none, none⟩ :
          Except HTTPError ExtractionResponse) = Except.ok r from h)
      have h3 : r.extracted_name = cleanReply t := by rw [← h2]
      rw [h3]
      exact stripWs_cleanReply t

/-- C1, witness for the amended theorem at the input `x` and reply `T`. -/
theorem c1_witness : stripWs (['T'] : List Char) = ['T'] :=
  c1_theorem ['x'] (ChatOutcome.reply ['T'])
    { original_input := ['x'], extracted_name := ['T'], year := none, media_type := none } rfl

/-- C2, counterexample: the spec's cleanup sequence read literally (the
trailing year must end the string) disagrees with the code on the reply
`Movie (1999) "`: the code yields `Movie`, the literal sequence yields
`Movie (1999)`, because the source regexes also tolerate whitespace after
the year (`\s*$`). -/
theorem c2_counterexample :
    cleanReply c2Input = "Movie".toList ∧
    specCleanStrict c2Input = "Movie (1999)".toList ∧
    ¬ cleanReply c2Input = specCleanStrict c2Input :=
  ⟨by decide, by decide, by decide⟩

/-- C2, amended: for every reply, `extract_media_name` cleans it by exactly
the spec's sequence, with the two year-removal steps amended to allow
trailing whitespace after the removed year (as the source regexes'
`\s*$` does); `year` and `media_type` are always empty. -/
theorem c2_theorem (t : List Char) :
    extract_media_name (ChatOutcome.reply t) =
      Except.ok { name := specCleanAmended t, year := none, type := none } := by
  have hs : specCleanAmended t = cleanReply t := by
    show stripWs (removeFirstSuffix wsBareYearWs (removeFirstSuffix wsParenYearWs
        (pyStrip isQuoteNl (applyFence (stripWs t))))) =
      stripWs (removeBareYear (removeParenYear (pyStrip isQuoteNl (applyFence (stripWs t)))))
    rw [removeFirstSuffix_bare_eq, removeFirstSuffix_paren_eq]
  rw [hs]
  rfl

/-- C3, counterexample: a request with `q` missing is rejected by the
framework validation with status 422 (FastAPI's default), not the claimed
400. -/
theorem c3_counterexample :
    extract_name none (ChatOutcome.reply []) =
      Except.error { status := 422, detail := missingQDetail } ∧
    (422 : Nat) ≠ 400 :=
  ⟨rfl, by decide⟩

/-- C3, amended: for every request in which `q` is missing or empty, the
service returns the framework's validation error with HTTP status 422, and
the response is independent of the inference outcome, i.e. the extraction
component (and hence the inference client) is never consulted. -/
theorem c3_theorem (q : Option (List Char)) (o o' : ChatOutcome)
    (h : q = none ∨ q = some []) :
    (∃ e, extract_name q o = Except.error e ∧ e.status = validationErrorStatus) ∧
    extract_name q o = extract_name q o' := by
  rcases h with rfl | rfl
  · exact ⟨⟨_, rfl, rfl⟩, rfl⟩
  · exact ⟨⟨_, rfl, rfl⟩, rfl⟩

/-- C3, witness for the amended theorem: missing `q`, two different
inference outcomes. -/
theorem c3_witness :
    (∃ e, extract_name none (ChatOutcome.reply ['a']) = Except.error e ∧
      e.status = validationErrorStatus) ∧
    extract_name none (ChatOutcome.reply ['a']) =
      extract_name none (ChatOutcome.failure ['b']) :=
  c3_theorem none (ChatOutcome.reply ['a']) (ChatOutcome.failure ['b']) (Or.inl rfl)

/-- C4: when the chat call raises with message `msg` on a valid request,
`/extract` returns HTTP 500 and its detail contains `msg`; when the
model-listing call raises with message `msg`, `/health` returns HTTP 503 and
its detail contains `msg`. -/
theorem c4_theorem (q msg host model : List Char) (h : 1 ≤ q.length) :
    (∃ e, extract_name (some q) (ChatOutcome.failure msg) = Except.error e ∧
      e.status = 500 ∧ ∃ a b, e.detail = a ++ msg ++ b) ∧
    (∃ e, health_check host model (ListModelsOutcome.failure msg) = Except.error e ∧
      e.status = 503 ∧ ∃ a b, e.detail = a ++ msg ++ b) := by
  constructor
  · refine ⟨{ status := 500, detail := ollamaErrMsg ++ msg }, ?_, rfl, ollamaErrMsg, [], by simp⟩
    simp only [extract_name, validate_q]
    rw [if_neg (by omega)]
    rfl
  · exact ⟨{ status := 503, detail := healthErrMsg ++ msg }, rfl, rfl, healthErrMsg, [], by simp⟩

/-- C4, witness at the concrete input `x`, message `boom`, and a concrete
host/model configuration. -/
theorem c4_witness :
    (∃ e, extract_name (some ['x']) (ChatOutcome.failure "boom".toList) = Except.error e ∧
      e.status = 500 ∧ ∃ a b, e.detail = a ++ "boom".toList ++ b) ∧
    (∃ e, health_check "h".toList "m".toList (ListModelsOutcome.failure "boom".toList) =
        Except.error e ∧
      e.status = 503 ∧ ∃ a b, e.detail = a ++ "boom".toList ++ b) :=
  c4_theorem ['x'] "boom".toList "h".toList "m".toList (by decide)

/-- C5: the `original_input` field of any successful `/extract` response
equals the raw query value `q` exactly. -/
theorem c5_theorem (q : List Char) (o : ChatOutcome) (r : ExtractionResponse)
    (h : extract_name (some q) o = Except.ok r) :
    r.original_input = q := by
  simp only [extract_name, validate_q] at h
  by_cases hq : q.length < 1
  · rw [if_pos hq] at h
    exact Except.noConfusion
      (show (Except.error { status := validationErrorStatus, detail := shortQDetail } :
        Except HTTPError ExtractionResponse) = Except.ok r from h)
  · rw [if_neg hq] at h
    cases o with
    | failure m =>
      exact Except.noConfusion
        (show (Except.error { status := 500, detail := ollamaErrMsg ++ m } :
          Except HTTPError ExtractionResponse) = Except.ok r from h)
    | reply t =>
      have h2 := Except.ok.inj
        (show (Except.ok ⟨q, cleanReply t, none, none⟩ :
          Except HTTPError ExtractionResponse) = Except.ok r from h)
      exact (by rw [← h2] : r.original_input = q)

/-- C5, witness at the input `x` and reply `a`. -/
theorem c5_witness :
    ExtractionResponse.original_input
      { original_input := ['x'], extracted_name := ['a'], year := none, media_type := none }
      = ['x'] :=
  c5_theorem ['x'] (ChatOutcome.reply ['a'])
    { original_input := ['x'], extracted_name := ['a'], year := none, media_type := none } rfl

/-- C6: a fenced reply ```` ```The Matrix``` ```` cleans to `The Matrix`. -/
theorem c6_theorem :
    extract_media_name (ChatOutcome.reply "```The Matrix```".toList) =
      Except.ok { name := "The Matrix".toList, year := none, type := none } :=
  rfl

/-- C7: the reply `"Inception (2010)"` (with the double quotes) cleans to
`Inception`. -/
theorem c7_theorem :
    extract_media_name (ChatOutcome.reply "\"Inception (2010)\"".toList) =
      Except.ok { name := "Inception".toList, year := none, type := none } :=
  rfl

/-- C8: the reply `Breaking Bad 2008` cleans to `Breaking Bad`. -/
theorem c8_theorem :
    extract_media_name (ChatOutcome.reply "Breaking Bad 2008".toList) =
      Except.ok { name := "Breaking Bad".toList, year := none, type := none } :=
  rfl

/-- C9: each year-removal substitution removes only an end-anchored suffix
(whitespace, the year, trailing whitespace), so a year embedded mid-title is
untouched; in particular `2001: A Space Odyssey` passes through both steps
and the whole cleanup unchanged. -/
theorem c9_theorem :
    (∀ l : List Char, ∃ suf, l = removeParenYear l ++ suf ∧
      (suf = [] ∨ wsParenYearWs suf = true)) ∧
    (∀ l : List Char, ∃ suf, l = removeBareYear l ++ suf ∧
      (suf = [] ∨ wsBareYearWs suf = true)) ∧
    removeParenYear odysseyTitle = odysseyTitle ∧
    removeBareYear odysseyTitle = odysseyTitle ∧
    cleanReply odysseyTitle = odysseyTitle := by
  refine ⟨?_, ?_, by decide, by decide, by decide⟩
  · intro l
    have h := removeFirstSuffix_decomp wsParenYearWs l
    rwa [removeFirstSuffix_paren_eq] at h
  · intro l
    have h := removeFirstSuffix_decomp wsBareYearWs l
    rwa [removeFirstSuffix_bare_eq] at h

/-- C10: the trailing bare-year removal deletes exactly the last four digits
of a longer digit run (the preceding character of the run survives), a reply
that is a bare 4-digit year cleans to the empty string, and a reply ending in
a 5-digit run keeps only the digit before the last four. -/
theorem c10_theorem :
    (∀ (p : List Char) (c d1 d2 d3 d4 : Char), c.isDigit = true → d1.isDigit = true →
      d2.isDigit = true → d3.isDigit = true → d4.isDigit = true →
      removeBareYear (p ++ [c, d1, d2, d3, d4]) = p ++ [c]) ∧
    cleanReply ['1', '9', '9', '9'] = [] ∧
    cleanReply ['1', '2', '3', '4', '5'] = ['1'] := by
  refine ⟨?_, by decide, by decide⟩
  intro p c d1 d2 d3 d4 hc h1 h2 h3 h4
  have hrev : (p ++ [c, d1, d2, d3, d4]).reverse = d4 :: d3 :: d2 :: d1 :: c :: p.reverse := by
    simp
  have hdrop : (p ++ [c, d1, d2, d3, d4]).reverse.dropWhile isSpaceChar
      = d4 :: d3 :: d2 :: d1 :: c :: p.reverse := by
    rw [hrev, List.dropWhile_cons, if_neg (by rw [isDigit_not_space h4]; simp)]
  rw [removeBareYear_eq_some (by
    rw [hdrop]
    simp only [matchBareYearRev]
    rw [if_pos (by simp [h1, h2, h3, h4])])]
  rw [List.dropWhile_cons, if_neg (by rw [isDigit_not_space hc]; simp)]
  simp

/-- C10, witness: `x12345` keeps `x1`. -/
theorem c10_witness : removeBareYear ['x', '1', '2', '3', '4', '5'] = ['x', '1'] :=
  c10_theorem.1 ['x'] '1' '2' '3' '4' '5' rfl rfl rfl rfl rfl
